import Mathlib

/-!
Verification of the json-mcp server (a set of JSON inspection tools) against
its specification.  The TypeScript sources are embedded shallowly: the JSON
value tree is an inductive type, every utility function of the server
(truncateForOutput, getValueByPath, analyzeJSONStructure, searchObject,
the json_slice array branch, safeParseJSON / json_validate) is translated
into a computable Lean function, and the specified properties are settled
as theorems about those functions.  JavaScript strings are modelled as Lean
strings over their character lists (the sources only ever manipulate ASCII
markers, where UTF-16 length and codepoint length agree); JSON numbers are
modelled as integers, which the server only passes through opaquely.
-/

set_option maxRecDepth 200000

namespace JsonMcp

/-- A parsed JSON document: the untyped value tree produced by the host
JSON parser.  Object entries keep insertion order, exactly as JavaScript
objects built by JSON.parse do. -/
inductive JsonValue where
  | null
  | bool (b : Bool)
  | num (n : Int)
  | str (s : String)
  | arr (xs : List JsonValue)
  | obj (kvs : List (String × JsonValue))

/-- One lower-case hexadecimal digit, as used by JSON.stringify escapes. -/
def hexDigit (n : Nat) : Char :=
  if n < 10 then Char.ofNat (48 + n) else Char.ofNat (87 + n)

/-- Escape one character the way JSON.stringify quotes string contents. -/
def jsEscapeChar (c : Char) : String :=
  if c = '"' then "\\\""
  else if c = '\\' then "\\\\"
  else if c = '\x08' then "\\b"
  else if c = '\x0c' then "\\f"
  else if c = '\n' then "\\n"
  else if c = '\r' then "\\r"
  else if c = '\t' then "\\t"
  else if c.toNat < 32 then
    "\\u00" ++ String.mk [hexDigit (c.toNat / 16), hexDigit (c.toNat % 16)]
  else String.mk [c]

/-- Escape a list of characters, concatenating the escapes. -/
def jsEscapeList : List Char → String
  | [] => ""
  | c :: rest => jsEscapeChar c ++ jsEscapeList rest

/-- JSON.stringify of a string value: quotes around the escaped contents. -/
def jsQuote (s : String) : String := "\"" ++ jsEscapeList s.data ++ "\""

mutual

/-- JSON.stringify with no indentation, as called by truncateForOutput to
estimate the serialized output size (src/unnamed/part_000, line 121). -/
def stringify : JsonValue → String
  | .null => "null"
  | .bool b => if b then "true" else "false"
  | .num n => toString n
  | .str s => jsQuote s
  | .arr xs => "[" ++ stringifyItems xs ++ "]"
  | .obj kvs => "\x7b" ++ stringifyEntries kvs ++ "\x7d"

/-- Comma-separated serialization of array elements. -/
def stringifyItems : List JsonValue → String
  | [] => ""
  | [x] => stringify x
  | x :: rest => stringify x ++ "," ++ stringifyItems rest

/-- Comma-separated serialization of object entries. -/
def stringifyEntries : List (String × JsonValue) → String
  | [] => ""
  | [(k, v)] => jsQuote k ++ ":" ++ stringify v
  | (k, v) :: rest => jsQuote k ++ ":" ++ stringify v ++ "," ++ stringifyEntries rest

end

mutual

/-- The inner recursive transform truncateValue of truncateForOutput
(src/unnamed/part_000, lines 126-165).  Strings longer than 200 characters
are clipped to their first 200 characters plus a count marker; arrays of
length greater than 1 keep only their transformed first element plus a
count marker (arrays of length at most 1 are transformed elementwise);
objects with more than 200 keys keep their first 200 entries plus a marker
entry (smaller objects are transformed entrywise); other values pass
through. -/
def truncateValue : JsonValue → JsonValue
  | .str s =>
    if 200 < s.data.length then
      .str (String.mk (s.data.take 200) ++ "..." ++ toString (s.data.length - 200)
        ++ " more characters")
    else .str s
  | .arr [] => .arr []
  | .arr [x] => .arr [truncateValue x]
  | .arr (x :: _y :: ys) =>
    -- source: length greater than 1 keeps value[0] and a marker counting
    -- the remaining value.length - 1 elements
    .arr [truncateValue x, .str ("..." ++ toString (ys.length + 1) ++ " more items")]
  | .obj kvs =>
    if kvs.length ≤ 200 then .obj (truncateEntries kvs)
    else .obj (truncateEntriesTo 200 kvs
      ++ [("..." ++ toString (kvs.length - 200) ++ " more properties", .str "...")])
  | .null => .null
  | .bool b => .bool b
  | .num n => .num n

/-- Entrywise truncation of all object entries. -/
def truncateEntries : List (String × JsonValue) → List (String × JsonValue)
  | [] => []
  | (k, v) :: rest => (k, truncateValue v) :: truncateEntries rest

/-- Entrywise truncation of the first n object entries, dropping the rest:
the keys.slice(0, 200) loop of the source. -/
def truncateEntriesTo : Nat → List (String × JsonValue) → List (String × JsonValue)
  | _, [] => []
  | 0, _ :: _ => []
  | n + 1, (k, v) :: rest => (k, truncateValue v) :: truncateEntriesTo n rest

end

/-- truncateForOutput from src/unnamed/part_000 (lines 119-168), the
OutputBounder: if the serialized form of the value fits within
maxOutputLength, return the value unchanged, otherwise apply the
truncation transform once. -/
def truncateForOutput (obj : JsonValue) (maxOutputLength : Nat := 25000) : JsonValue :=
  if (stringify obj).data.length ≤ maxOutputLength then obj else truncateValue obj

/-- Whether pat occurs as a prefix of hay, comparing characters. -/
def isPfx : List Char → List Char → Bool
  | [], _ => true
  | _ :: _, [] => false
  | a :: as, b :: bs => a = b && isPfx as bs

/-- Index of the first occurrence of pat in hay at position i or later,
where hay is the remaining suffix starting at position i. -/
def occAux (pat : List Char) (hay : List Char) (i : Nat) : Option Nat :=
  if isPfx pat hay then some i
  else
    match hay with
    | [] => none
    | _ :: rest => occAux pat rest (i + 1)

/-- Whether pat occurs anywhere inside hay. -/
def listContains (pat hay : List Char) : Bool := (occAux pat hay 0).isSome

/-- Whether a string contains one of the three elision-marker phrases that
truncateValue inserts. -/
def isMarkerString (s : String) : Bool :=
  listContains " more characters".data s.data
    || listContains " more items".data s.data
    || listContains " more properties".data s.data

mutual

/-- Whether a value contains a truncation marker anywhere: a marker phrase
inside a string value or inside an object key. -/
def hasMarker : JsonValue → Bool
  | .str s => isMarkerString s
  | .arr xs => hasMarkerItems xs
  | .obj kvs => hasMarkerEntries kvs
  | _ => false

/-- Marker search over array elements. -/
def hasMarkerItems : List JsonValue → Bool
  | [] => false
  | x :: rest => hasMarker x || hasMarkerItems rest

/-- Marker search over object entries, keys included. -/
def hasMarkerEntries : List (String × JsonValue) → Bool
  | [] => false
  | (k, v) :: rest => isMarkerString k || hasMarker v || hasMarkerEntries rest

end

mutual

/-- Whether a value contains a node that truncateValue actually reduces:
a string longer than 200 characters, an array of length greater than 1, or
an object with more than 200 keys. -/
def hasTruncatable : JsonValue → Bool
  | .str s => 200 < s.data.length
  | .arr xs => 1 < xs.length || hasTruncatableItems xs
  | .obj kvs => 200 < kvs.length || hasTruncatableEntries kvs
  | _ => false

/-- Truncatable-node search over array elements. -/
def hasTruncatableItems : List JsonValue → Bool
  | [] => false
  | x :: rest => hasTruncatable x || hasTruncatableItems rest

/-- Truncatable-node search over object entries. -/
def hasTruncatableEntries : List (String × JsonValue) → Bool
  | [] => false
  | (_, v) :: rest => hasTruncatable v || hasTruncatableEntries rest

end

theorem isPfx_self_append : ∀ (p t : List Char), isPfx p (p ++ t) = true
  | [], _ => rfl
  | c :: cs, t => by simp [isPfx, isPfx_self_append cs t]

theorem occAux_isSome (p : List Char) :
    ∀ (s t : List Char) (i : Nat), (occAux p (s ++ p ++ t) i).isSome = true
  | [], t, i => by
    have h := isPfx_self_append p t
    rw [occAux.eq_def]
    simp [h]
  | c :: s, t, i => by
    simp only [List.cons_append]
    rw [occAux.eq_def]
    split
    · rfl
    · exact occAux_isSome p s t (i + 1)

theorem listContains_append (p s t : List Char) : listContains p (s ++ p ++ t) = true :=
  occAux_isSome p s t 0

theorem listContains_suffix (p s : List Char) : listContains p (s ++ p) = true := by
  have h := listContains_append p s []
  simpa using h

/-- Any string ending in the characters phrase is recognized as marked. -/
theorem isMarkerString_characters (a : String) :
    isMarkerString (a ++ " more characters") = true := by
  have h := listContains_suffix " more characters".data a.data
  simp [isMarkerString, String.data_append, h]

/-- Any string ending in the items phrase is recognized as marked. -/
theorem isMarkerString_items (a : String) :
    isMarkerString (a ++ " more items") = true := by
  have h := listContains_suffix " more items".data a.data
  simp [isMarkerString, String.data_append, h]

/-- Any string ending in the properties phrase is recognized as marked. -/
theorem isMarkerString_properties (a : String) :
    isMarkerString (a ++ " more properties") = true := by
  have h := listContains_suffix " more properties".data a.data
  simp [isMarkerString, String.data_append, h]

theorem hasMarkerEntries_append (a b : List (String × JsonValue)) :
    hasMarkerEntries (a ++ b) = (hasMarkerEntries a || hasMarkerEntries b) := by
  induction a with
  | nil => simp [hasMarkerEntries]
  | cons kv rest ih =>
    obtain ⟨k, v⟩ := kv
    simp [hasMarkerEntries, ih, Bool.or_assoc]

mutual

/-- If a value contains a node that truncateValue reduces, the transformed
value contains an elision marker. -/
theorem hasMarker_truncateValue :
    ∀ (v : JsonValue), hasTruncatable v = true → hasMarker (truncateValue v) = true
  | .null => by simp [hasTruncatable]
  | .bool b => by simp [hasTruncatable]
  | .num n => by simp [hasTruncatable]
  | .str s => by
    intro h
    simp only [hasTruncatable, decide_eq_true_eq] at h
    have h2 : 200 < s.length := h
    have hm : isMarkerString (String.mk (s.data.take 200) ++ "..."
        ++ toString (s.length - 200) ++ " more characters") = true :=
      isMarkerString_characters
        (String.mk (s.data.take 200) ++ "..." ++ toString (s.length - 200))
    simp [truncateValue, h2, hasMarker, hm]
  | .arr [] => by simp [hasTruncatable, hasTruncatableItems]
  | .arr [x] => by
    intro h
    simp [hasTruncatable, hasTruncatableItems] at h
    simp [truncateValue, hasMarker, hasMarkerItems, hasMarker_truncateValue x h]
  | .arr (x :: y :: ys) => by
    intro _
    have hm : isMarkerString ("..." ++ toString (ys.length + 1) ++ " more items") = true :=
      isMarkerString_items ("..." ++ toString (ys.length + 1))
    simp [truncateValue, hasMarker, hasMarkerItems, hm]
  | .obj kvs => by
    intro h
    simp only [hasTruncatable, Bool.or_eq_true, decide_eq_true_eq] at h
    by_cases hlen : kvs.length ≤ 200
    · have hent : hasTruncatableEntries kvs = true := by
        rcases h with h | h
        · omega
        · exact h
      simp only [truncateValue, hasMarker]
      rw [if_pos hlen]
      exact hasMarkerEntries_trunc kvs hent
    · have hm : isMarkerString ("..." ++ toString (kvs.length - 200)
          ++ " more properties") = true :=
        isMarkerString_properties ("..." ++ toString (kvs.length - 200))
      simp only [truncateValue, hasMarker]
      rw [if_neg hlen]
      simp [hasMarker, hasMarkerEntries_append, hasMarkerEntries, hm]

/-- Entrywise version of the marker preservation theorem. -/
theorem hasMarkerEntries_trunc :
    ∀ (kvs : List (String × JsonValue)), hasTruncatableEntries kvs = true →
      hasMarkerEntries (truncateEntries kvs) = true
  | [] => by simp [hasTruncatableEntries]
  | (k, v) :: rest => by
    intro h
    simp only [hasTruncatableEntries, Bool.or_eq_true] at h
    simp only [truncateEntries, hasMarkerEntries, Bool.or_eq_true]
    rcases h with h | h
    · exact Or.inl (Or.inr (hasMarker_truncateValue v h))
    · exact Or.inr (hasMarkerEntries_trunc rest h)

end

/-- Counterexample value for bounding idempotence: a single string of 450
characters. -/
def c1Value : JsonValue := .str (String.mk (List.replicate 450 'a'))

/-- Length of a string node, used to separate two string results. -/
def strNodeLength : JsonValue → Nat
  | .str s => s.data.length
  | _ => 0

/-- C1.  The claim that bounding is idempotent for every value and budget is
false: a 450 character string bounded with budget 100 becomes a 222
character marked string whose serialization still exceeds the budget, so a
second pass clips the already-marked text again. -/
theorem c1_bound_idempotence_counterexample :
    truncateForOutput (truncateForOutput c1Value 100) 100 ≠ truncateForOutput c1Value 100 :=
  fun h => absurd (congrArg strNodeLength h) (by decide)

/-- C1 (amended).  Bounding is idempotent whenever the once-bounded result
serializes within the budget; the second pass then takes the cheap branch
and returns its input unchanged. -/
theorem c1_bound_idempotent_of_fits (v : JsonValue) (b : Nat)
    (h : (stringify (truncateForOutput v b)).data.length ≤ b) :
    truncateForOutput (truncateForOutput v b) b = truncateForOutput v b := by
  rw [truncateForOutput, if_pos h]

theorem c1_bound_idempotent_of_fits_witness :
    truncateForOutput (truncateForOutput JsonValue.null 25000) 25000 =
      truncateForOutput JsonValue.null 25000 :=
  c1_bound_idempotent_of_fits JsonValue.null 25000 (by decide)

/-- Counterexample value for threshold exactness: nested singleton arrays
whose serialization is 8 characters but which contain nothing the
truncation transform reduces. -/
def c2Value : JsonValue := .arr [.arr [.null]]

/-- C2.  The claim that any value serializing to maxOutputLength + 1 gains
a truncation marker is false: with budget 7 this 8 character value is passed
to the truncation transform, which returns it unchanged and markerless
because it has no long string, no multi-element array and no oversized
object. -/
theorem c2_threshold_marker_counterexample :
    (stringify c2Value).data.length = 7 + 1 ∧
    hasMarker (truncateForOutput c2Value 7) = false ∧
    truncateForOutput c2Value 7 = c2Value :=
  ⟨by decide, by decide, rfl⟩

/-- C2 (amended).  A value serializing within the budget is returned
unchanged; a value serializing to exactly budget + 1 is handed to the
truncation transform, and it gains at least one elision marker provided it
contains a truncatable node (a string longer than 200 characters, an array
of length greater than 1, or an object with more than 200 keys). -/
theorem c2_threshold (b : Nat) (v : JsonValue) :
    ((stringify v).data.length ≤ b → truncateForOutput v b = v) ∧
    ((stringify v).data.length = b + 1 →
      truncateForOutput v b = truncateValue v ∧
      (hasTruncatable v = true → hasMarker (truncateForOutput v b) = true)) := by
  constructor
  · intro h
    rw [truncateForOutput, if_pos h]
  · intro h
    have hgt : ¬ (stringify v).data.length ≤ b := by omega
    refine ⟨by rw [truncateForOutput, if_neg hgt], ?_⟩
    intro ht
    rw [truncateForOutput, if_neg hgt]
    exact hasMarker_truncateValue v ht

theorem c2_threshold_witness :
    truncateForOutput (JsonValue.arr [JsonValue.null, JsonValue.null]) 11 =
      JsonValue.arr [JsonValue.null, JsonValue.null] ∧
    truncateForOutput (JsonValue.arr [JsonValue.null, JsonValue.null]) 10 =
      truncateValue (JsonValue.arr [JsonValue.null, JsonValue.null]) ∧
    hasMarker (truncateForOutput (JsonValue.arr [JsonValue.null, JsonValue.null]) 10) = true :=
  ⟨(c2_threshold 11 (JsonValue.arr [JsonValue.null, JsonValue.null])).1 (by decide),
   ((c2_threshold 10 (JsonValue.arr [JsonValue.null, JsonValue.null])).2 (by decide)).1,
   ((c2_threshold 10 (JsonValue.arr [JsonValue.null, JsonValue.null])).2 (by decide)).2 (by decide)⟩

/-- C3.  When the budget is exceeded, every array of length greater than 1
is replaced by exactly its transformed first element followed by one
elision marker counting the original length minus 1; the second conjunct
states the same equation for the recursive transform, hence for every
array node that survives into the result. -/
theorem c3_array_elision (b : Nat) (x y : JsonValue) (ys : List JsonValue)
    (h : b < (stringify (JsonValue.arr (x :: y :: ys))).data.length) :
    truncateForOutput (JsonValue.arr (x :: y :: ys)) b =
      JsonValue.arr [truncateValue x,
        JsonValue.str ("..." ++ toString ((x :: y :: ys).length - 1) ++ " more items")] ∧
    ∀ (z w : JsonValue) (ws : List JsonValue),
      truncateValue (JsonValue.arr (z :: w :: ws)) =
        JsonValue.arr [truncateValue z,
          JsonValue.str ("..." ++ toString ((z :: w :: ws).length - 1) ++ " more items")] := by
  have hle : ¬ (stringify (JsonValue.arr (x :: y :: ys))).data.length ≤ b := by omega
  constructor
  · rw [truncateForOutput, if_neg hle]
    rw [truncateValue]
    have hlen : (x :: y :: ys).length - 1 = ys.length + 1 := by simp
    rw [hlen]
  · intro z w ws
    rw [truncateValue]
    have hlen : (z :: w :: ws).length - 1 = ws.length + 1 := by simp
    rw [hlen]

theorem c3_array_elision_witness :
    truncateForOutput (JsonValue.arr [JsonValue.null, JsonValue.null]) 0 =
      JsonValue.arr [truncateValue JsonValue.null,
        JsonValue.str ("..." ++ toString (([JsonValue.null, JsonValue.null] : List JsonValue).length - 1)
          ++ " more items")] :=
  (c3_array_elision 0 JsonValue.null JsonValue.null [] (by decide)).1

/-- The outcome of JavaScript ToNumber on a string, restricted to what
array index lookup observes: an integer value, some non-integer number or
infinity (which always indexes as undefined), or NaN (none). -/
inductive JsNum where
  | int (n : Int)
  | notIndex
  deriving DecidableEq

/-- Decimal digits to a natural number, most significant first. -/
def digitsToNat : List Char → Nat → Nat
  | [], acc => acc
  | c :: rest, acc => digitsToNat rest (acc * 10 + (c.toNat - 48))

/-- Value of one hexadecimal digit character. -/
def hexDigitVal (c : Char) : Nat :=
  if c.isDigit then c.toNat - 48
  else if 'a' ≤ c ∧ c ≤ 'f' then c.toNat - 87
  else c.toNat - 55

/-- Whether a character is a hexadecimal digit. -/
def isHexDigitChar (c : Char) : Bool :=
  c.isDigit || ('a' ≤ c && c ≤ 'f') || ('A' ≤ c && c ≤ 'F')

/-- Whether a character is a digit of the given radix (2, 8 or 16). -/
def isRadixDigit (base : Nat) (c : Char) : Bool :=
  isHexDigitChar c && hexDigitVal c < base

/-- Digits of the given radix to a natural number. -/
def radixToNat (base : Nat) : List Char → Nat → Nat
  | [], acc => acc
  | c :: rest, acc => radixToNat base rest (acc * base + hexDigitVal c)

/-- A 0x / 0o / 0b literal body: nonempty digits of the radix. -/
def parseRadix (base : Nat) (rest : List Char) : Option JsNum :=
  if rest ≠ [] ∧ rest.all (isRadixDigit base) then some (.int (radixToNat base rest 0))
  else none

/-- An optionally signed nonempty digit string (exponent part). -/
def parseSignedDigits : List Char → Option Int
  | '+' :: rest =>
    if rest ≠ [] ∧ rest.all Char.isDigit then some (digitsToNat rest 0) else none
  | '-' :: rest =>
    if rest ≠ [] ∧ rest.all Char.isDigit then some (-(digitsToNat rest 0 : Int)) else none
  | rest =>
    if rest ≠ [] ∧ rest.all Char.isDigit then some (digitsToNat rest 0) else none

/-- The unsigned decimal literal grammar of ToNumber: digits with an
optional fractional part and an optional exponent, the whole input
consumed.  Integer values are kept exactly; non-integer values are
collapsed to notIndex. -/
def parseDecimal (cs : List Char) : Option JsNum :=
  let p1 := cs.span Char.isDigit
  let p2 :=
    match p1.2 with
    | '.' :: rest => rest.span Char.isDigit
    | _ => (([] : List Char), p1.2)
  let expPart : Option Int :=
    match p2.2 with
    | [] => some 0
    | 'e' :: rest => parseSignedDigits rest
    | 'E' :: rest => parseSignedDigits rest
    | _ => none
  match expPart with
  | none => none
  | some e =>
    if (p1.1 ++ p2.1).isEmpty then none
    else
      let m := digitsToNat (p1.1 ++ p2.1) 0
      let k : Int := p2.1.length
      if m = 0 then some (.int 0)
      else if k ≤ e then some (.int (m * 10 ^ (e - k).toNat))
      else if m % 10 ^ (k - e).toNat = 0 then some (.int (m / 10 ^ (k - e).toNat))
      else some .notIndex

/-- Whitespace trimming as performed by ToNumber before parsing. -/
def trimChars (cs : List Char) : List Char :=
  ((cs.dropWhile Char.isWhitespace).reverse.dropWhile Char.isWhitespace).reverse

/-- JavaScript Number(string) as used by getValueByPath (the isNaN test
and the index conversion): whitespace is trimmed, the empty string is 0,
and the decimal, hexadecimal, octal and binary literal grammars are
recognized; anything else is NaN (none).  Finite non-integers and
infinities are collapsed to notIndex since indexing with them always
yields undefined; IEEE double rounding of extreme literals is not
modelled. -/
def jsNumber (s : String) : Option JsNum :=
  match trimChars s.data with
  | [] => some (.int 0)
  | '+' :: rest =>
    if rest = "Infinity".data then some .notIndex else parseDecimal rest
  | '-' :: rest =>
    if rest = "Infinity".data then some .notIndex
    else
      match parseDecimal rest with
      | some (.int n) => some (.int (-n))
      | r => r
  | '0' :: 'x' :: rest => parseRadix 16 rest
  | '0' :: 'X' :: rest => parseRadix 16 rest
  | '0' :: 'o' :: rest => parseRadix 8 rest
  | '0' :: 'O' :: rest => parseRadix 8 rest
  | '0' :: 'b' :: rest => parseRadix 2 rest
  | '0' :: 'B' :: rest => parseRadix 2 rest
  | t => if t = "Infinity".data then some .notIndex else parseDecimal t

/-- First object entry with the given key (JavaScript own-property read;
JSON.parse never produces duplicate keys). -/
def lookupEntry : List (String × JsonValue) → String → Option JsonValue
  | [], _ => none
  | (k, v) :: rest, key => if k = key then some v else lookupEntry rest key

/-- The canonical nonnegative integer denoted by a key, if any: nonempty,
all digits, no leading zero (JavaScript canonical array index strings). -/
def decCanonical (key : String) : Option Nat :=
  if key.data ≠ [] ∧ key.data.all Char.isDigit ∧
      (key.data = ['0'] ∨ key.data.head? ≠ some '0') then
    some (digitsToNat key.data 0)
  else none

/-- JavaScript property read current[key] on the values the resolver can
encounter.  Own properties of parsed JSON data are modelled: object
entries, array elements and length, string characters and length.
Inherited prototype members are functions, which are not JSON values and
are not observable through the JSON tools; they are modelled as
undefined. -/
def jsProp (v : JsonValue) (key : String) : Option JsonValue :=
  match v with
  | .obj kvs => lookupEntry kvs key
  | .arr xs =>
    if key = "length" then some (.num xs.length)
    else
      match decCanonical key with
      | some n => xs[n]?
      | none => none
  | .str s =>
    if key = "length" then some (.num s.data.length)
    else
      match decCanonical key with
      | some n =>
        match s.data[n]? with
        | some c => some (.str (String.mk [c]))
        | none => none
      | none => none
  | _ => none

/-- One step of the getValueByPath reduce callback (src/src/index.ts lines
35-41, identical in src/unnamed/part_000): undefined and null
short-circuit to undefined; on an array, a key whose Number conversion is
not NaN indexes the array (undefined outside bounds or at a non-integer);
every other case is the property read current[key]. -/
def pathStep (current : Option JsonValue) (key : String) : Option JsonValue :=
  match current with
  | none => none
  | some .null => none
  | some (.arr xs) =>
    match jsNumber key with
    | some (.int n) => if 0 ≤ n then xs[n.toNat]? else none
    | some .notIndex => none
    | none => jsProp (.arr xs) key
  | some v => jsProp v key

/-- Split on a separator character, exactly like JavaScript split with a
single-character separator: the empty string yields one empty segment. -/
def jsSplit (sep : Char) : List Char → List Char → List String
  | [], acc => [String.mk acc.reverse]
  | c :: rest, acc =>
    if c = sep then String.mk acc.reverse :: jsSplit sep rest []
    else jsSplit sep rest (c :: acc)

/-- getValueByPath from src/src/index.ts lines 34-42: split the path on
dots and reduce with pathStep starting from the document. -/
def getValueByPath (obj : JsonValue) (path : String) : Option JsonValue :=
  (jsSplit '.' path.data []).foldl pathStep (some obj)

/-- The guard used by every tool that takes an optional path parameter:
target = path ? getValueByPath(data, path) : data.  An absent path and the
empty string are both falsy, so the root document is used without calling
getValueByPath. -/
def resolveTarget (data : JsonValue) (path : Option String) : Option JsonValue :=
  match path with
  | none => some data
  | some p => if p = "" then some data else getValueByPath data p

/-- Counterexample document for the empty-path claim. -/
def c4Value : JsonValue := .obj [("a", .num 1)]

/-- C4.  The claim that getValueByPath maps the empty path to the document
itself is false: the empty string splits into one empty segment, which is
looked up as the property with the empty-string key; on this object the
result is undefined, not the document. -/
theorem c4_empty_path_counterexample : getValueByPath c4Value "" ≠ some c4Value :=
  fun h => Option.noConfusion h

/-- C4 (amended).  At the operation layer an absent or empty path is falsy
and the root document is used unchanged; getValueByPath itself treats the
empty string as a single empty segment and performs one lookup step with
it (on an array that step indexes element 0, since Number of the empty
string is 0). -/
theorem c4_empty_path_amended (data : JsonValue) :
    resolveTarget data none = some data ∧
    resolveTarget data (some "") = some data ∧
    getValueByPath data "" = pathStep (some data) "" :=
  ⟨rfl, rfl, rfl⟩

/-- C10.  On an array, a segment whose Number conversion is NaN falls
through to the property read on the array instead of returning undefined;
in particular the segment length yields the element count, and the empty
segment (Number of the empty string being 0) indexes the first element. -/
theorem c10_array_nan_fallthrough (xs : List JsonValue) (key : String)
    (h : jsNumber key = none) :
    pathStep (some (JsonValue.arr xs)) key = jsProp (JsonValue.arr xs) key ∧
    getValueByPath (JsonValue.arr xs) "length" = some (JsonValue.num xs.length) ∧
    ∀ (x : JsonValue) (rest : List JsonValue),
      getValueByPath (JsonValue.arr (x :: rest)) "" = some x := by
  refine ⟨?_, ?_, ?_⟩
  · simp [pathStep, h]
  · have hl : jsNumber "length" = none := by decide
    simp [getValueByPath, jsSplit, pathStep, hl, jsProp]
  · intro x rest
    have h0 : jsNumber "" = some (JsNum.int 0) := by decide
    simp [getValueByPath, jsSplit, pathStep, h0]

theorem c10_array_nan_fallthrough_witness :
    pathStep (some (JsonValue.arr [JsonValue.null])) "foo"
      = jsProp (JsonValue.arr [JsonValue.null]) "foo" :=
  (c10_array_nan_fallthrough [JsonValue.null] "foo" (by decide)).1

mutual

/-- analyzeJSONStructure from src/unnamed/part_000 lines 44-86, the
StructureSampler: past the depth limit a marker string; null verbatim;
scalars replaced by their typeof name; arrays sample their first three
elements, plus a count marker when more existed; objects sample their
first maxKeys entries in insertion order (all of them when maxKeys is
absent), plus one synthetic marker entry when keys were omitted. -/
def analyzeJSONStructure (obj : JsonValue) (maxDepth currentDepth : Nat)
    (maxKeys : Option Nat) : JsonValue :=
  if maxDepth < currentDepth then .str "[...depth limit reached...]"
  else
    match obj with
    | .null => .null
    | .bool _ => .str "boolean"
    | .num _ => .str "number"
    | .str _ => .str "string"
    | .arr xs =>
      if xs.length = 0 then .arr []
      else
        let sample := analyzeItemsTo 3 xs maxDepth currentDepth maxKeys
        if 3 < xs.length then
          .arr (sample ++ [.str ("[..." ++ toString (xs.length - 3) ++ " more items]")])
        else .arr sample
    | .obj kvs =>
      let keyLimit := maxKeys.getD kvs.length
      let sampled := analyzeEntriesTo keyLimit kvs maxDepth currentDepth maxKeys
      if keyLimit < kvs.length then
        .obj (sampled
          ++ [("[..." ++ toString (kvs.length - keyLimit) ++ " more keys]", .str "...")])
      else .obj sampled

/-- The slice(0, n).map recursion over array elements. -/
def analyzeItemsTo : Nat → List JsonValue → Nat → Nat → Option Nat → List JsonValue
  | _, [], _, _, _ => []
  | 0, _ :: _, _, _, _ => []
  | n + 1, x :: rest, maxDepth, currentDepth, maxKeys =>
    analyzeJSONStructure x maxDepth (currentDepth + 1) maxKeys
      :: analyzeItemsTo n rest maxDepth currentDepth maxKeys

/-- The keys.slice(0, keyLimit) recursion over object entries. -/
def analyzeEntriesTo : Nat → List (String × JsonValue) → Nat → Nat → Option Nat →
    List (String × JsonValue)
  | _, [], _, _, _ => []
  | 0, _ :: _, _, _, _ => []
  | n + 1, (k, v) :: rest, maxDepth, currentDepth, maxKeys =>
    (k, analyzeJSONStructure v maxDepth (currentDepth + 1) maxKeys)
      :: analyzeEntriesTo n rest maxDepth currentDepth maxKeys

end

theorem analyzeEntriesTo_eq_take_map (maxDepth currentDepth : Nat) (maxKeys : Option Nat) :
    ∀ (n : Nat) (kvs : List (String × JsonValue)),
      analyzeEntriesTo n kvs maxDepth currentDepth maxKeys
        = (kvs.take n).map
            (fun kv => (kv.1, analyzeJSONStructure kv.2 maxDepth (currentDepth + 1) maxKeys))
  | _, [] => by simp [analyzeEntriesTo]
  | 0, (_, _) :: _ => by simp [analyzeEntriesTo]
  | n + 1, (k, v) :: rest => by
    simp [analyzeEntriesTo,
      analyzeEntriesTo_eq_take_map maxDepth currentDepth maxKeys n rest]

/-- C7.  For an object sampled within the depth limit, the result keeps
the first keyLimit entries in insertion order, each value recursively
sampled, and appends exactly one synthetic marker entry (key counting the
omitted keys, value the ellipsis string) when the limit cut keys off; with
the default (absent) maxKeys all entries are kept and no marker is
added. -/
theorem c7_object_sampling (kvs : List (String × JsonValue))
    (maxDepth currentDepth : Nat) (maxKeys : Option Nat)
    (h : currentDepth ≤ maxDepth) :
    (analyzeJSONStructure (JsonValue.obj kvs) maxDepth currentDepth maxKeys =
      (let keyLimit := maxKeys.getD kvs.length
       let sampled := (kvs.take keyLimit).map
         (fun kv => (kv.1, analyzeJSONStructure kv.2 maxDepth (currentDepth + 1) maxKeys))
       if keyLimit < kvs.length then
         JsonValue.obj (sampled
           ++ [("[..." ++ toString (kvs.length - keyLimit) ++ " more keys]",
                JsonValue.str "...")])
       else JsonValue.obj sampled)) ∧
    analyzeJSONStructure (JsonValue.obj kvs) maxDepth currentDepth none =
      JsonValue.obj (kvs.map
        (fun kv => (kv.1, analyzeJSONStructure kv.2 maxDepth (currentDepth + 1) none))) := by
  have hnd : ¬ maxDepth < currentDepth := by omega
  constructor
  · rw [analyzeJSONStructure, if_neg hnd]
    simp [analyzeEntriesTo_eq_take_map]
  · rw [analyzeJSONStructure, if_neg hnd]
    simp [analyzeEntriesTo_eq_take_map]

theorem c7_object_sampling_witness :
    analyzeJSONStructure (JsonValue.obj [("a", JsonValue.null), ("b", JsonValue.null)]) 3 0
        (some 1) =
      (let keyLimit := (some 1).getD
        ([("a", JsonValue.null), ("b", JsonValue.null)] : List (String × JsonValue)).length
       let sampled := (([("a", JsonValue.null), ("b", JsonValue.null)]
           : List (String × JsonValue)).take keyLimit).map
         (fun kv => (kv.1, analyzeJSONStructure kv.2 3 (0 + 1) (some 1)))
       if keyLimit < ([("a", JsonValue.null), ("b", JsonValue.null)]
           : List (String × JsonValue)).length then
         JsonValue.obj (sampled
           ++ [("[..." ++ toString (([("a", JsonValue.null), ("b", JsonValue.null)]
               : List (String × JsonValue)).length - keyLimit) ++ " more keys]",
                JsonValue.str "...")])
       else JsonValue.obj sampled) :=
  (c7_object_sampling [("a", JsonValue.null), ("b", JsonValue.null)] 3 0 (some 1)
    (by decide)).1

/-- JavaScript Array.prototype.slice with two integer arguments: negative
indices count from the end, both are clamped to the array bounds, and the
half-open range between them is returned. -/
def jsArraySlice (xs : List JsonValue) (s e : Int) : List JsonValue :=
  let len : Int := xs.length
  let s1 := if s < 0 then max (len + s) 0 else min s len
  let e1 := if e < 0 then max (len + e) 0 else min e len
  (xs.take e1.toNat).drop s1.toNat

/-- The array branch of the json_slice tool (src/src/index.ts lines
266-269): sliceStart is start or-else 0 and sliceEnd is end or-else the
length, both via JavaScript truthiness (an explicit 0 counts as absent),
then target.slice(sliceStart, sliceEnd). -/
def jsonSliceArray (xs : List JsonValue) (start? end? : Option Int) : List JsonValue :=
  let sliceStart : Int :=
    match start? with
    | none => 0
    | some v => if v = 0 then 0 else v
  let sliceEnd : Int :=
    match end? with
    | none => (xs.length : Int)
    | some v => if v = 0 then (xs.length : Int) else v
  jsArraySlice xs sliceStart sliceEnd

/-- Counterexample array for the slice claim. -/
def c8Value : List JsonValue := [.num 1, .num 2, .num 3]

/-- C8.  The claim that an explicit end of 0 yields the empty prefix is
false: end is defaulted with the or-else operator, 0 is falsy, so an
explicit end of 0 selects the whole array. -/
theorem c8_slice_end_zero_counterexample :
    jsonSliceArray c8Value none (some 0) = c8Value ∧ c8Value ≠ [] :=
  ⟨rfl, fun h => List.noConfusion h⟩

theorem drop_min_of_le {α : Type} (l : List α) (n m : Nat) (h : l.length ≤ m) :
    l.drop (min n m) = l.drop n := by
  rcases le_or_lt n m with h1 | h1
  · rw [min_eq_left h1]
  · rw [min_eq_right h1.le, List.drop_eq_nil_of_le h,
      List.drop_eq_nil_of_le (by omega)]

/-- C8 (amended).  An explicit start or end of 0 behaves as if the
parameter were absent (falsy defaulting); for a nonnegative start and a
positive end the result is the standard half-open clamped range; any other
explicit nonzero bounds, negative ones included, are passed straight to
the JavaScript slice semantics, which counts them from the end of the
array. -/
theorem c8_slice_amended :
    (∀ xs : List JsonValue,
      jsonSliceArray xs none (some 0) = xs ∧ jsonSliceArray xs (some 0) none = xs) ∧
    (∀ (xs : List JsonValue) (s e : Int), 0 ≤ s → 0 < e →
      jsonSliceArray xs (some s) (some e) = (xs.take e.toNat).drop s.toNat) ∧
    (∀ (xs : List JsonValue) (s e : Int), s ≠ 0 → e ≠ 0 →
      jsonSliceArray xs (some s) (some e) = jsArraySlice xs s e) := by
  refine ⟨?_, ?_, ?_⟩
  · intro xs
    have hlen0 : ¬ ((xs.length : Int) < 0) := by omega
    have hmin : min (0 : Int) (xs.length : Int) = 0 := by omega
    have hminl : min (xs.length : Int) (xs.length : Int) = (xs.length : Int) := by omega
    have key : jsArraySlice xs 0 (xs.length : Int) = xs := by
      simp only [jsArraySlice]
      rw [if_neg (by omega : ¬ (0 : Int) < 0), if_neg hlen0, hmin, hminl]
      simp
    exact ⟨key, key⟩
  · intro xs s e hs he
    have hs0 : ¬ s < 0 := by omega
    have he0 : ¬ e < 0 := by omega
    have hsne : (if s = 0 then (0 : Int) else s) = s := by
      split <;> omega
    have hene : (if e = 0 then (xs.length : Int) else e) = e := by
      split <;> omega
    simp only [jsonSliceArray, jsArraySlice, hsne, hene, if_neg hs0, if_neg he0]
    have h1 : (min e (xs.length : Int)).toNat = min e.toNat xs.length := by omega
    have h2 : (min s (xs.length : Int)).toNat = min s.toNat xs.length := by omega
    rw [h1, h2]
    have h3 : xs.take (min e.toNat xs.length) = xs.take e.toNat := by
      rw [List.take_eq_take]
      omega
    rw [h3]
    exact drop_min_of_le (xs.take e.toNat) s.toNat xs.length (by simp)
  · intro xs s e hs he
    simp only [jsonSliceArray, if_neg hs, if_neg he]

theorem c8_slice_amended_witness :
    jsonSliceArray [JsonValue.num 1, JsonValue.num 2, JsonValue.num 3] (some 1) (some 2)
      = (([JsonValue.num 1, JsonValue.num 2, JsonValue.num 3].take (2 : Int).toNat).drop
          (1 : Int).toNat) ∧
    jsonSliceArray [JsonValue.num 1, JsonValue.num 2, JsonValue.num 3] (some (-1)) (some 3)
      = jsArraySlice [JsonValue.num 1, JsonValue.num 2, JsonValue.num 3] (-1) 3 :=
  ⟨c8_slice_amended.2.1 [JsonValue.num 1, JsonValue.num 2, JsonValue.num 3] 1 2
      (by decide) (by decide),
   c8_slice_amended.2.2 [JsonValue.num 1, JsonValue.num 2, JsonValue.num 3] (-1) 3
      (by decide) (by decide)⟩

/-- The search_type parameter of json_search. -/
inductive SearchType where
  | key
  | value
  | both
  deriving DecidableEq

/-- One search hit, as pushed by searchObject: its kind (key or value),
the dotted-and-bracketed path, the entry key and the entry value. -/
structure SearchHit where
  kind : String
  path : String
  key : String
  value : JsonValue

/-- The mutable context of a search: the results array and the lastIndex
property of the one shared regex object. -/
structure SearchState where
  results : List SearchHit
  lastIndex : Nat

/-- Case normalization for the i flag (the data here is ASCII, where
lower-casing both sides matches ECMA-262 canonicalization). -/
def normChar (caseSensitive : Bool) (c : Char) : Char :=
  if caseSensitive then c else c.toLower

/-- RegExp.prototype.test per ECMA-262 for a metacharacter-free pattern
compiled with the global flag, which the source always sets (flags are g
or gi): the match must begin at or after lastIndex; success advances
lastIndex past the match, failure resets it to 0.  Returns the outcome
and the new lastIndex. -/
def regexTest (caseSensitive : Bool) (pat s : String) (lastIndex : Nat) : Bool × Nat :=
  let patN := pat.data.map (normChar caseSensitive)
  let hayN := s.data.map (normChar caseSensitive)
  match occAux patN (hayN.drop lastIndex) lastIndex with
  | some i => (true, i + patN.length)
  | none => (false, 0)

mutual

/-- searchObject from src/src/index.ts lines 337-359: return immediately
once maxRes results have accumulated; arrays recurse elementwise with
bracket-index paths; objects, per entry, test the key (for key and both
searches), then test string values (for value and both searches), both
against the one shared stateful regex, push the hits, and recurse into the
value. -/
def searchObject (caseSensitive : Bool) (st : SearchType) (maxRes : Nat) (pat : String)
    (obj : JsonValue) (currentPath : String) (s : SearchState) : SearchState :=
  if maxRes ≤ s.results.length then s
  else
    match obj with
    | .arr xs => searchItems caseSensitive st maxRes pat xs 0 currentPath s
    | .obj kvs => searchEntries caseSensitive st maxRes pat kvs currentPath s
    | _ => s

/-- The forEach loop over array elements. -/
def searchItems (caseSensitive : Bool) (st : SearchType) (maxRes : Nat) (pat : String)
    (xs : List JsonValue) (index : Nat) (currentPath : String) (s : SearchState) :
    SearchState :=
  match xs with
  | [] => s
  | item :: rest =>
    let s1 := searchObject caseSensitive st maxRes pat item
      (currentPath ++ "[" ++ toString index ++ "]") s
    searchItems caseSensitive st maxRes pat rest (index + 1) currentPath s1

/-- The forEach loop over object entries. -/
def searchEntries (caseSensitive : Bool) (st : SearchType) (maxRes : Nat) (pat : String)
    (kvs : List (String × JsonValue)) (currentPath : String) (s : SearchState) :
    SearchState :=
  match kvs with
  | [] => s
  | (key, value) :: rest =>
    let newPath := if currentPath = "" then key else currentPath ++ "." ++ key
    let s1 :=
      if st = SearchType.key ∨ st = SearchType.both then
        let r := regexTest caseSensitive pat key s.lastIndex
        if r.1 then ⟨s.results ++ [⟨"key", newPath, key, value⟩], r.2⟩
        else ⟨s.results, r.2⟩
      else s
    let s2 :=
      if st = SearchType.value ∨ st = SearchType.both then
        match value with
        | .str vs =>
          let r := regexTest caseSensitive pat vs s1.lastIndex
          if r.1 then ⟨s1.results ++ [⟨"value", newPath, key, JsonValue.str vs⟩], r.2⟩
          else ⟨s1.results, r.2⟩
        | _ => s1
      else s1
    let s3 := searchObject caseSensitive st maxRes pat value newPath s2
    searchEntries caseSensitive st maxRes pat rest currentPath s3

end

/-- The json_search tool body: a fresh regex (lastIndex 0), an empty
results array and the root path, then searchObject over the document. -/
def searchTop (caseSensitive : Bool) (st : SearchType) (maxRes : Nat) (pat : String)
    (data : JsonValue) : SearchState :=
  searchObject caseSensitive st maxRes pat data "" ⟨[], 0⟩

/-- The matches the tool actually renders: results.slice(0, maxRes) in the
markdown loop (src/src/index.ts line 370). -/
def displayedMatches (caseSensitive : Bool) (st : SearchType) (maxRes : Nat) (pat : String)
    (data : JsonValue) : List SearchHit :=
  (searchTop caseSensitive st maxRes pat data).results.take maxRes

/-- The document on which the both search undercounts. -/
def c5Doc : JsonValue := .obj [("a", .str "a")]

/-- C5.  Search completeness fails on the code: on the document whose only
entry maps key a to the string value a, with the pattern a (default
case-insensitive search) and an effectively unbounded cap, the both search
finds exactly 1 hit while the key-only and value-only searches find 1 hit
each, so both is not their sum.  The shared regex is compiled with the
global flag, so after the successful key test its lastIndex points past
position 0 and the value test on the same one-character string fails. -/
theorem c5_search_completeness_failure :
    (searchTop false SearchType.both 100 "a" c5Doc).results.length = 1 ∧
    (searchTop false SearchType.key 100 "a" c5Doc).results.length = 1 ∧
    (searchTop false SearchType.value 100 "a" c5Doc).results.length = 1 ∧
    (searchTop false SearchType.both 100 "a" c5Doc).results.length ≠
      (searchTop false SearchType.key 100 "a" c5Doc).results.length +
        (searchTop false SearchType.value 100 "a" c5Doc).results.length :=
  ⟨rfl, rfl, rfl, by decide⟩

/-- The document on which the result cap overshoots. -/
def c6Doc : JsonValue := .obj [("x", .null), ("yx", .null)]

/-- C6.  The claim that hits beyond the cap are never produced is false:
with maxResults 1, both keys of this document match the pattern x, and the
cap is only consulted at the start of a recursive visit, not between the
entries of one object, so 2 hits are recorded (and the reported match
count is 2). -/
theorem c6_cap_overshoot_counterexample :
    (searchTop false SearchType.key 1 "x" c6Doc).results.length = 2 ∧
    1 < (searchTop false SearchType.key 1 "x" c6Doc).results.length :=
  ⟨rfl, by decide⟩

/-- C6 (amended).  The cap check at the start of each recursive visit
makes a visit with maxRes results already accumulated a no-op, so descent
stops once the cap is reached; however, entries of a single object can
push past the cap, and it is the rendered match list, results.slice(0,
maxRes), that never exceeds maxResults. -/
theorem c6_cap_amended :
    (∀ (caseSensitive : Bool) (st : SearchType) (maxRes : Nat) (pat : String)
        (v : JsonValue) (path : String) (s : SearchState),
      maxRes ≤ s.results.length → searchObject caseSensitive st maxRes pat v path s = s) ∧
    (∀ (caseSensitive : Bool) (st : SearchType) (maxRes : Nat) (pat : String)
        (v : JsonValue), (displayedMatches caseSensitive st maxRes pat v).length ≤ maxRes) := by
  constructor
  · intro caseSensitive st maxRes pat v path s h
    rw [searchObject.eq_def, if_pos h]
  · intro caseSensitive st maxRes pat v
    simp only [displayedMatches, List.length_take]
    omega

theorem c6_cap_amended_witness :
    searchObject false SearchType.key 1 "x" JsonValue.null "p"
        ⟨[⟨"key", "a", "a", JsonValue.null⟩], 0⟩
      = ⟨[⟨"key", "a", "a", JsonValue.null⟩], 0⟩ :=
  c6_cap_amended.1 false SearchType.key 1 "x" JsonValue.null "p"
    ⟨[⟨"key", "a", "a", JsonValue.null⟩], 0⟩ (by decide)

theorem isPfx_append_right : ∀ (p u t : List Char), isPfx p u = true → isPfx p (u ++ t) = true
  | [], _, _, _ => rfl
  | _ :: _, [], _, h => by simp [isPfx] at h
  | a :: as, b :: bs, t, h => by
    simp only [isPfx, Bool.and_eq_true, decide_eq_true_eq] at h
    simp only [List.cons_append, isPfx, Bool.and_eq_true, decide_eq_true_eq]
    exact ⟨h.1, isPfx_append_right as bs t h.2⟩

theorem occAux_isSome_append_right (p t : List Char) :
    ∀ (hay : List Char) (i : Nat), (occAux p hay i).isSome = true →
      (occAux p (hay ++ t) i).isSome = true
  | [], i, h => by
    rw [occAux.eq_def] at h
    by_cases hp : isPfx p [] = true
    · have hpnil : p = [] := by
        cases p with
        | nil => rfl
        | cons a as => simp [isPfx] at hp
      subst hpnil
      rw [occAux.eq_def]
      simp [isPfx]
    · simp [hp] at h
  | c :: hay, i, h => by
    rw [occAux.eq_def] at h
    rw [List.cons_append, occAux.eq_def]
    by_cases hq : isPfx p (c :: (hay ++ t)) = true
    · rw [if_pos hq]
      rfl
    · rw [if_neg hq]
      have hp : ¬ isPfx p (c :: hay) = true := by
        intro hp
        have := isPfx_append_right p (c :: hay) t hp
        rw [List.cons_append] at this
        exact hq this
      rw [if_neg hp] at h
      have h2 : (occAux p hay (i + 1)).isSome = true := h
      exact occAux_isSome_append_right p t hay (i + 1) h2

theorem occAux_isSome_shift (p : List Char) :
    ∀ (hay : List Char) (i j : Nat), (occAux p hay i).isSome = (occAux p hay j).isSome
  | [], i, j => by
    rw [occAux.eq_def, occAux.eq_def]
    by_cases hp : isPfx p [] = true
    · simp [hp]
    · simp [hp]
  | c :: hay, i, j => by
    rw [occAux.eq_def, occAux.eq_def]
    by_cases hp : isPfx p (c :: hay) = true
    · simp [hp]
    · simp only [if_neg hp]
      exact occAux_isSome_shift p hay (i + 1) (j + 1)

theorem listContains_append_right (p s t : List Char) (h : listContains p s = true) :
    listContains p (s ++ t) = true :=
  occAux_isSome_append_right p t s 0 h

theorem listContains_self_append (p t : List Char) : listContains p (p ++ t) = true := by
  rw [listContains, occAux.eq_def]
  simp [isPfx_self_append]

theorem listContains_append_left (p t : List Char) :
    ∀ (s : List Char), listContains p t = true → listContains p (s ++ t) = true
  | [], h => h
  | c :: s, h => by
    have h2 := listContains_append_left p t s h
    rw [List.cons_append, listContains, occAux.eq_def]
    by_cases hq : isPfx p (c :: (s ++ t)) = true
    · rw [if_pos hq]
      rfl
    · rw [if_neg hq]
      have h3 : (occAux p (s ++ t) 1).isSome = true := by
        rw [occAux_isSome_shift p (s ++ t) 1 0]
        exact h2
      exact h3

/-- safeParseJSON from src/src/index.ts lines 16-22, with the host
JSON.parse outcome passed in: a parse failure message is rethrown wrapped
with the file path. -/
def safeParseJSON (parsed : Except String JsonValue) (filePath : String) :
    Except String JsonValue :=
  match parsed with
  | .ok v => .ok v
  | .error msg => .error ("Invalid JSON in file " ++ filePath ++ ": " ++ msg)

/-- The accumulating state of validateObject: the issues array and the
running maximum depth. -/
structure ValidateState where
  issues : List String
  maxDepth : Nat

mutual

/-- validateObject from src/src/index.ts lines 461-493: track the maximum
depth, report deep nesting when max_depth_check is set (a value of 0 is
falsy and disables the check), report empty arrays and objects when
check_empty is set, report duplicate keys when check_duplicates is set
(JSON.parse never yields any, so the set-size test is modelled on the
deduplicated key list), and recurse into children. -/
def validateObject (check_duplicates check_empty : Bool) (max_depth_check : Option Nat)
    (obj : JsonValue) (currentDepth : Nat) (currentPath : String)
    (st : ValidateState) : ValidateState :=
  let st0 : ValidateState := ⟨st.issues, max st.maxDepth currentDepth⟩
  let st1 : ValidateState :=
    match max_depth_check with
    | some d =>
      if d ≠ 0 ∧ d < currentDepth then
        ⟨st0.issues ++ ["Deep nesting detected at " ++ currentPath ++ " (depth: "
          ++ toString currentDepth ++ ")"], st0.maxDepth⟩
      else st0
    | none => st0
  match obj with
  | .arr xs =>
    let st2 :=
      if check_empty ∧ xs.length = 0 then
        ⟨st1.issues ++ ["Empty array at " ++ currentPath], st1.maxDepth⟩
      else st1
    validateItems check_duplicates check_empty max_depth_check xs 0 currentDepth
      currentPath st2
  | .obj kvs =>
    let st2 :=
      if check_empty ∧ kvs.length = 0 then
        ⟨st1.issues ++ ["Empty object at " ++ currentPath], st1.maxDepth⟩
      else st1
    let keys := kvs.map Prod.fst
    let st3 :=
      if check_duplicates ∧ keys.dedup.length ≠ keys.length then
        ⟨st2.issues ++ ["Potential duplicate keys detected at " ++ currentPath],
         st2.maxDepth⟩
      else st2
    validateEntries check_duplicates check_empty max_depth_check kvs currentDepth
      currentPath st3
  | _ => st1

/-- The forEach loop over array elements of validateObject. -/
def validateItems (check_duplicates check_empty : Bool) (max_depth_check : Option Nat)
    (xs : List JsonValue) (index currentDepth : Nat) (currentPath : String)
    (st : ValidateState) : ValidateState :=
  match xs with
  | [] => st
  | item :: rest =>
    let st1 := validateObject check_duplicates check_empty max_depth_check item
      (currentDepth + 1) (currentPath ++ "[" ++ toString index ++ "]") st
    validateItems check_duplicates check_empty max_depth_check rest (index + 1)
      currentDepth currentPath st1

/-- The forEach loop over object entries of validateObject. -/
def validateEntries (check_duplicates check_empty : Bool) (max_depth_check : Option Nat)
    (kvs : List (String × JsonValue)) (currentDepth : Nat) (currentPath : String)
    (st : ValidateState) : ValidateState :=
  match kvs with
  | [] => st
  | (key, value) :: rest =>
    let st1 := validateObject check_duplicates check_empty max_depth_check value
      (currentDepth + 1) (currentPath ++ "." ++ key) st
    validateEntries check_duplicates check_empty max_depth_check rest currentDepth
      currentPath st1

end

/-- toFixed(2) of n/1024 in hundredths: a double holds n/1024 exactly and
toFixed rounds half away from zero, so the printed value is
floor((25n + 128)/256) hundredths of a KB. -/
def kbHundredths (n : Nat) : Nat := (25 * n + 128) / 256

/-- The file-size line body: hundredths formatted with two decimals. -/
def kbString (n : Nat) : String :=
  let q := kbHundredths n
  let frac := q % 100
  toString (q / 100) ++ "." ++ (if frac < 10 then "0" ++ toString frac else toString frac)

/-- The numbered issue list of the validation report, one issue per line. -/
def issuesList : List String → Nat → String
  | [], _ => ""
  | i :: rest, idx => toString idx ++ ". " ++ i ++ "\n" ++ issuesList rest (idx + 1)

/-- The json_validate tool handler (src/src/index.ts lines 453-525), with
the host file read and JSON.parse outcome passed in: a parse failure is
caught and rendered as the negative report built from the thrown message;
on success the validation walk renders the issue report.  The handler
always returns a report string; no exception escapes it. -/
def jsonValidateHandler (file_path content : String) (parsed : Except String JsonValue)
    (check_duplicates check_empty : Bool) (max_depth_check : Option Nat) : String :=
  match safeParseJSON parsed file_path with
  | .error msg =>
    "# JSON Validation Report\n\n✗ **Invalid JSON**\n\n**Error:** " ++ msg ++ "\n"
  | .ok data =>
    let st := validateObject check_duplicates check_empty max_depth_check data 0 "root"
      ⟨[], 0⟩
    let base := "# JSON Validation Report\n\n✓ **Valid JSON**\n\n**File Size:** "
      ++ kbString content.data.length ++ " KB\n**Max Depth:** " ++ toString st.maxDepth
      ++ "\n**Issues Found:** " ++ toString st.issues.length ++ "\n\n"
    if st.issues.length = 0 then base ++ "✓ No issues found\n"
    else base ++ "## Issues\n\n" ++ issuesList st.issues 1

/-- C9.  A parse failure never escapes json_validate: the handler matches
on the failure outcome and returns the structured negative report string,
which is exactly the invalid-JSON report built from the wrapped message
and which contains the underlying parser message verbatim. -/
theorem c9_validate_parse_error (file_path content msg : String)
    (check_duplicates check_empty : Bool) (max_depth_check : Option Nat) :
    jsonValidateHandler file_path content (.error msg) check_duplicates check_empty
        max_depth_check
      = "# JSON Validation Report\n\n✗ **Invalid JSON**\n\n**Error:** "
        ++ ("Invalid JSON in file " ++ file_path ++ ": " ++ msg) ++ "\n" ∧
    listContains msg.data (jsonValidateHandler file_path content (.error msg)
        check_duplicates check_empty max_depth_check).data = true := by
  refine ⟨rfl, ?_⟩
  have hrw : jsonValidateHandler file_path content (.error msg) check_duplicates
      check_empty max_depth_check
      = "# JSON Validation Report\n\n✗ **Invalid JSON**\n\n**Error:** "
        ++ ("Invalid JSON in file " ++ file_path ++ ": " ++ msg) ++ "\n" := rfl
  rw [hrw]
  simp only [String.data_append, List.append_assoc]
  refine listContains_append_left _ _ _ (listContains_append_left _ _ _
    (listContains_append_left _ _ _ (listContains_append_left _ _ _
      (listContains_self_append _ _))))

end JsonMcp
